import Mathlib

/-!
Shallow embedding of the orijtech/frontender dispatch engine.

The definitions below are translated from `frontender.go` and
`lively/lively.go`.  Go strings are modelled as Lean `String`s and string
operations act on their character lists; Go maps with string keys whose
zero value matters (`lp.next`, `lp.liveAddresses`) are modelled as total
functions with the zero value as default; Go maps used only for iteration
(`PrefixRouter`, the peer membership map) are modelled as association
lists whose order stands for the (unspecified) iteration order.  Network
effects are passed in explicitly: an oracle assigns to every probed peer
the outcome of the `POST addr/ping` request, and the output of
`rand.Perm` is an explicit index-list argument.
-/

/-- Models Go `strings.HasPrefix s pre` (bytewise prefix test, expressed on
character lists; a character prefix and a byte prefix agree on valid
UTF-8). -/
def goHasPrefix (s pre : String) : Bool :=
  pre.toList.isPrefixOf s.toList

/-- Models Go `strings.TrimPrefix s pre`: drop the prefix when present,
otherwise return the string unchanged. -/
def goTrimPrefixStr (s pre : String) : String :=
  if goHasPrefix s pre then String.mk (s.toList.drop pre.toList.length) else s

/-- Models Go `strings.TrimSpace`: drop leading and trailing whitespace
characters (the exotic Unicode space classes are irrelevant here). -/
def goTrimSpace (s : String) : String :=
  String.mk (((s.toList.dropWhile Char.isWhitespace).reverse.dropWhile
    Char.isWhitespace).reverse)

/-- Models `lively.Ping` (`PeerID`, `Clock`). -/
structure Ping where
  peerID : String
  clock : Int
deriving DecidableEq

/-- Models `lively.blankPing`, the zero `Ping` value. -/
def blankPing : Ping := { peerID := "", clock := 0 }

/-- Outcome of reading the response body in `Peer.ping`: either
`ioutil.ReadAll` fails, or it yields bytes whose `json.Unmarshal` into a
`Ping` either succeeds (`some`) or leaves the zero value (`none`). -/
inductive BodyRead where
  | readError (e : String)
  | bytes (parsed : Option Ping)
deriving DecidableEq

/-- Outcome of the probe HTTP exchange: `requestError` covers
`http.NewRequest` / `Client.Do` failures (connection refused, timeout,
TLS failure, DNS, malformed address); `response` is a completed exchange
with a status code and a body-read outcome. -/
inductive ProbeOutcome where
  | requestError (e : String)
  | response (statusCode : Nat) (body : BodyRead)
deriving DecidableEq

/-- Models `otils.StatusOK` (external dependency): 2xx status codes. -/
def statusOK (code : Nat) : Bool :=
  decide (200 ≤ code ∧ code ≤ 299)

/-- Models `lively.Peer` (mutex and transport field omitted; the
membership map is passed to `Liveliness` as its snapshot list). -/
structure Peer where
  addr : String
  id : String
  primary : Bool := false
deriving DecidableEq

/-- Models `(*Peer).ping(other)` as a function of the network outcome of
`POST other.Addr/ping`:
non-2xx statuses return the blank ping with a nil error; on 2xx the body
is read and decoded, a decode failure being ignored so that the zero
`Ping` is returned. -/
def Peer.ping (net : Peer → ProbeOutcome) (other : Peer) : Except String Ping :=
  match net other with
  | .requestError e => .error e
  | .response statusCode body =>
      if !statusOK statusCode then
        .ok blankPing
      else
        match body with
        | .readError e => .error e
        | .bytes none => .ok blankPing
        | .bytes (some recv) => .ok recv

/-- Models `lively.Liveliness`, one record per probed peer. -/
structure Liveliness where
  peerID : String
  ping : Option Ping
  err : Option String
  addr : String
deriving DecidableEq

/-- Models `lively.LivelyRequest`. -/
structure LivelyRequest where
  concurrentPings : Int := 0
deriving DecidableEq

/-- Models the result-collection loop of `Peer.Liveliness`: each probe
result is appended to the live partition when `err == nil && ping != nil`
and to the non-live partition otherwise.  The input list order stands for
the unspecified completion order of the worker pool. -/
def collectLiveliness (net : Peer → ProbeOutcome) : List Peer → List Liveliness × List Liveliness
  | [] => ([], [])
  | curPeer :: rest =>
      let acc := collectLiveliness net rest
      match Peer.ping net curPeer with
      | .ok p =>
          ({ peerID := curPeer.id, ping := some p, err := none, addr := curPeer.addr } :: acc.1,
           acc.2)
      | .error e =>
          (acc.1,
           { peerID := curPeer.id, ping := none, err := some e, addr := curPeer.addr } :: acc.2)

/-- Models `(*Peer).Liveliness(llv)`: snapshot the membership map
(`secondaries`), probe every member through a worker pool of size
`concurrentPings` (the pool size only bounds parallelism), partition the
results, and return a nil top-level error. -/
def Peer.Liveliness (_p : Peer) (llv : Option LivelyRequest) (secondaries : List Peer)
    (net : Peer → ProbeOutcome) : List Liveliness × List Liveliness × Option String :=
  let _concurrentPings : Int :=
    match llv with
    | some l => if 0 < l.concurrentPings then l.concurrentPings else 5
    | none => 5
  let acc := collectLiveliness net secondaries
  (acc.1, acc.2, none)

/-- Models `frontender.Request` (listener factories and generation-only
fields omitted; `PrefixRouter` is an association list standing for the Go
map). -/
structure Request where
  http1 : Bool := false
  domains : List String := []
  noAutoWWW : Bool := false
  proxyAddresses : List String := []
  nonHTTPSRedirectURL : String := ""
  nonHTTPSAddr : String := ""
  backendPingPeriod : Int := 0
  prefixRouter : List (String × List String) := []
deriving DecidableEq

/-- Models `otils.FirstNonEmptyString` (external dependency): the first
argument that is not the empty string, or the empty string. -/
def firstNonEmptyString (args : List String) : String :=
  match args.find? (fun s => s != "") with
  | some s => s
  | none => ""

/-- Models `(*Request).hasAtLeastOneProxy` for a non-nil request: when
`PrefixRouter` is empty, consult `ProxyAddresses`; otherwise consult only
the `PrefixRouter` entries. -/
def Request.hasAtLeastOneProxy (req : Request) : Bool :=
  if req.prefixRouter.length = 0 then
    firstNonEmptyString req.proxyAddresses != ""
  else
    req.prefixRouter.any (fun entry => firstNonEmptyString entry.2 != "")

/-- Models `(*Request).needsDomains`. -/
def Request.needsDomains (req : Request) : Bool :=
  req.http1 == false

/-- The two validation errors of `(*Request).Validate`
(`errEmptyProxyAddress`, `errEmptyDomains`). -/
inductive ValidateError where
  | emptyProxyAddress
  | emptyDomains
deriving DecidableEq

/-- Models `(*Request).Validate`. -/
def Request.Validate (req : Request) : Option ValidateError :=
  if !req.hasAtLeastOneProxy then some .emptyProxyAddress
  else if req.needsDomains && goTrimSpace (firstNonEmptyString req.domains) == "" then
    some .emptyDomains
  else none

/-- Inner loop of `SynthesizeDomains`: append `cur` to the final list
unless it was already seen; the first component is `finalList`, the
second the `uniqs` set (modelled as a list with membership). -/
def addUnique (acc : List String × List String) (cur : String) : List String × List String :=
  if cur ∈ acc.2 then acc else (acc.1 ++ [cur], cur :: acc.2)

/-- One iteration of the `SynthesizeDomains` loop body: trim the domain,
skip it when empty, otherwise add it and, when auto-www applies and the
domain does not start with `"www"`, also add `"www." ++ domain`. -/
def synthStep (noAutoWWW : Bool) (acc : List String × List String) (rawDomain : String) :
    List String × List String :=
  let domain := goTrimSpace rawDomain
  if domain == "" then acc
  else
    let toAdd :=
      if !noAutoWWW && !goHasPrefix domain "www" then [domain, "www." ++ domain]
      else [domain]
    toAdd.foldl addUnique acc

/-- Models `(*Request).SynthesizeDomains`. -/
def Request.SynthesizeDomains (req : Request) : List String :=
  (req.domains.foldl (synthStep req.noAutoWWW) ([], [])).1

/-- Comparator of the `sort.Slice` call in `makeLivelyProxy`:
`len(si) >= len(sj)`. -/
def longerOrEqual (si sj : String) : Prop :=
  sj.length ≤ si.length

instance : DecidableRel longerOrEqual :=
  fun si sj => inferInstanceAs (Decidable (sj.length ≤ si.length))

instance : IsTotal String longerOrEqual :=
  ⟨fun si sj => Nat.le_total sj.length si.length⟩

instance : IsTrans String longerOrEqual :=
  ⟨fun _ _ _ hab hbc => Nat.le_trans hbc hab⟩

/-- Models the `sort.Slice(routePrefixes, ...)` call: a comparison sort
with comparator `len(si) >= len(sj)`, producing a list in non-increasing
length order. -/
def sortLongestFirst (routePrefixes : List String) : List String :=
  List.insertionSort longerOrEqual routePrefixes

/-- Value update of a string-keyed Go map modelled as a total function. -/
def updateMap {α : Type} (m : String → α) (k : String) (v : α) : String → α :=
  fun r => if r = k then v else m r

/-- Models `frontender.livelyProxy` (mutex omitted; the `next` and
`liveAddresses` maps are total functions with the Go zero values as
defaults; `primaries` lists the keys of `primariesMap`). -/
structure livelyProxy where
  next : String → Nat
  cycleFreq : Int
  primaries : List String
  longestPrefixFirst : List String
  liveAddresses : String → List String

/-- Models `makeLivelyProxy(cycleFreq, pr)`: record the route list sorted
longest-first and start with empty `next` / `liveAddresses` maps (peer
construction with random identifiers is not needed by the claims and is
omitted; `primaries` keeps the route key set). -/
def makeLivelyProxy (cycleFreq : Int) (pr : List (String × List String)) : livelyProxy :=
  { next := fun _ => 0
    cycleFreq := cycleFreq
    primaries := pr.map Prod.fst
    longestPrefixFirst := sortLongestFirst (pr.map Prod.fst)
    liveAddresses := fun _ => [] }

/-- The route-matching loop of `livelyProxy.ServeHTTP`: the first entry
of `longestPrefixFirst` that is a prefix of the path, or the zero value
`""` when none matches. -/
def matchedRoute (longestPrefixFirst : List String) (path : String) : String :=
  match longestPrefixFirst.find? (fun routePre => goHasPrefix path routePre) with
  | some r => r
  | none => ""

/-- Models `(*livelyProxy).roundRobinedAddress(route)`: empty live list
yields `""` and leaves the state unchanged; otherwise the cursor is reset
to 0 when it is out of range, the address at the cursor is selected, and
the cursor is incremented. -/
def livelyProxy.roundRobinedAddress (lp : livelyProxy) (route : String) :
    String × livelyProxy :=
  let liveAddrs := lp.liveAddresses route
  if liveAddrs.length = 0 then ("", lp)
  else
    let cur := if liveAddrs.length ≤ lp.next route then 0 else lp.next route
    (liveAddrs.getD cur "", { lp with next := updateMap lp.next route (cur + 1) })

/-- Result of one `ServeHTTP` call: either `http.Error` with a status
code (the code only writes 500 here, on a `url.Parse` failure), or the
request is handed to the reverse proxy for `proxyAddr` with the rewritten
path. -/
inductive DispatchOutcome where
  | respondError (statusCode : Nat) (msg : String)
  | forward (proxyAddr : String) (outPath : String)
deriving DecidableEq

/-- Models `(*livelyProxy).ServeHTTP`: match the route by longest prefix
first, pick the round-robined address, parse it (`urlParseOk` stands for
`url.Parse` succeeding on the address; it does succeed on `""`), strip
the matched route from the path and ensure it starts with `"/"`, then
forward. -/
def livelyProxy.ServeHTTP (lp : livelyProxy) (urlParseOk : String → Bool) (path : String) :
    DispatchOutcome × livelyProxy :=
  let matched := matchedRoute lp.longestPrefixFirst path
  let picked := lp.roundRobinedAddress matched
  if !urlParseOk picked.1 then (.respondError 500 "url parse error", picked.2)
  else
    let stripped := goTrimPrefixStr path matched
    let outPath := if goHasPrefix stripped "/" then stripped else "/" ++ stripped
    (.forward picked.1 outPath, picked.2)

/-- Models `(*livelyProxy).cycle(route, primary)`: run `Liveliness` with
a fresh `LivelyRequest`, project the live records to their addresses,
reset the route cursor to 0 and install the shuffled address list, both
inside the same mutex-protected section (here: the same state
transition).  `perm` is the output of `rand.Perm(len(liveAddresses))`. -/
def livelyProxy.cycle (lp : livelyProxy) (route : String) (primary : Peer)
    (secondaries : List Peer) (net : Peer → ProbeOutcome) (perm : List Nat) :
    (List Liveliness × List Liveliness × Option String) × livelyProxy :=
  let res := primary.Liveliness (some { concurrentPings := 0 }) secondaries net
  let liveAddrs := res.1.map (fun peer => peer.addr)
  let shuffledAddresses := perm.map (fun i => liveAddrs.getD i "")
  (res,
   { lp with
       next := updateMap lp.next route 0
       liveAddresses := updateMap lp.liveAddresses route shuffledAddresses })

/-- Models the map-building loop of `(*livelyProxy).run`: for every entry
of `primariesMap` a feedback channel is allocated (channels are counted
by the second component) and a cycle goroutine is started, but the loop
body never stores the channel in `feedbackChanMap`, so the returned map
is the (empty) initial one. -/
def livelyProxy.run (lp : livelyProxy) : List (String × Nat) × Nat :=
  lp.primaries.foldl
    (fun acc _route =>
      let feedbackChanMap := acc.1
      let allocatedChans := acc.2
      (feedbackChanMap, allocatedChans + 1))
    ([], 0)

/-- Iterated dispatch: the addresses returned by `k` successive
`roundRobinedAddress` calls on one route, threading the state. -/
def livelyProxy.dispatches (lp : livelyProxy) (route : String) : Nat → List String
  | 0 => []
  | Nat.succ k =>
      let step := lp.roundRobinedAddress route
      step.1 :: step.2.dispatches route k

/-! Spec-side definitions: the response-classification table of the spec,
and the spec-style description of domain synthesis, stated independently
of the code model so that the code model can be compared against them. -/

/-- Classification table of the spec: a probed peer counts as live except
on a transport-level failure (a failed request, or a failed body read
after a 2xx status). -/
def tableIsLive (o : ProbeOutcome) : Bool :=
  match o with
  | .requestError _ => false
  | .response statusCode (.readError _) => !statusOK statusCode
  | .response _ (.bytes _) => true

/-- Ping reported for a live peer per the table: the parsed body on 2xx
with a parseable JSON Ping, the blank sentinel otherwise. -/
def tablePing (o : ProbeOutcome) : Ping :=
  match o with
  | .response statusCode (.bytes (some p)) => if statusOK statusCode then p else blankPing
  | _ => blankPing

/-- Error reported for a non-live peer per the table. -/
def tableErr (o : ProbeOutcome) : String :=
  match o with
  | .requestError e => e
  | .response _ (.readError e) => e
  | _ => ""

/-- A dispatcher state with a single live address under route `"/"`,
used to exercise the cursor claims. -/
def lpOneLive : livelyProxy :=
  { next := fun _ => 0
    cycleFreq := 0
    primaries := ["/"]
    longestPrefixFirst := ["/"]
    liveAddresses := fun r => if r = "/" then ["http://a"] else [] }

/-- Cache invariant that the code actually maintains: for every route the
stored cursor never exceeds the live-list length (it may transiently
equal it right after the last element was served). -/
def cursorInv (lp : livelyProxy) : Prop :=
  ∀ r, lp.next r ≤ (lp.liveAddresses r).length

/-- A dispatcher state with two live addresses under route `"/"`. -/
def lpTwoLive : livelyProxy :=
  { next := fun _ => 0
    cycleFreq := 0
    primaries := ["/"]
    longestPrefixFirst := ["/"]
    liveAddresses := fun r => if r = "/" then ["http://a", "http://b"] else [] }

/-- Spec-style www expansion (with the code's actual `"www"` check): a
domain expands to itself followed by its `www.` form when auto-www
applies and the domain does not already start with `"www"`. -/
def expandAutoWWW (noAutoWWW : Bool) (domain : String) : List String :=
  if !noAutoWWW && !goHasPrefix domain "www" then [domain, "www." ++ domain]
  else [domain]

/-- Spec-style first-occurrence deduplication with an explicit seen
set. -/
def dedupKeepFirst (seen : List String) : List String → List String
  | [] => []
  | x :: xs =>
      if x ∈ seen then dedupKeepFirst seen xs
      else x :: dedupKeepFirst (x :: seen) xs

/-- Spec-style description of domain synthesis: trim, drop empties,
expand each domain by its www form, deduplicate keeping first
occurrences. -/
def specSynthesizeDomains (noAutoWWW : Bool) (rawDomains : List String) : List String :=
  dedupKeepFirst []
    (((rawDomains.map goTrimSpace).filter (fun d => d != "")).flatMap
      (expandAutoWWW noAutoWWW))

theorem ping_eq_table (net : Peer → ProbeOutcome) (s : Peer) :
    Peer.ping net s =
      (if tableIsLive (net s) then Except.ok (tablePing (net s))
       else Except.error (tableErr (net s))) := by
  rcases hnet : net s with e | ⟨statusCode, body⟩
  · simp [Peer.ping, tableIsLive, tableErr, hnet]
  · rcases body with e | parsed
    · by_cases hst : statusOK statusCode = true <;>
        simp [Peer.ping, tableIsLive, tableErr, tablePing, hnet, hst]
    · rcases parsed with _ | p <;>
        by_cases hst : statusOK statusCode = true <;>
          simp [Peer.ping, tableIsLive, tablePing, hnet, hst]

theorem collectLiveliness_eq_table (net : Peer → ProbeOutcome) (secondaries : List Peer) :
    collectLiveliness net secondaries =
      ((secondaries.filter (fun s => tableIsLive (net s))).map
        (fun s => { peerID := s.id, ping := some (tablePing (net s)), err := none,
                    addr := s.addr }),
       (secondaries.filter (fun s => !tableIsLive (net s))).map
        (fun s => { peerID := s.id, ping := none, err := some (tableErr (net s)),
                    addr := s.addr })) := by
  induction secondaries with
  | nil => rfl
  | cons curPeer rest ih =>
      by_cases hlive : tableIsLive (net curPeer) = true <;>
        simp [collectLiveliness, ih, ping_eq_table, hlive]

/-- C2.  Probe classification: for every probed secondary, a completed
2xx exchange with a parseable JSON Ping body yields a live record
carrying the parsed Ping; a completed 2xx exchange with an unparseable
body yields a live record carrying the blank sentinel; any completed
non-2xx exchange (404, 5xx, ...) yields a live record carrying the blank
sentinel; and a peer lands in the non-live partition, with the error in
its Liveliness record, exactly when the probe fails at the transport
level (the request fails, or the 2xx body read fails). -/
theorem liveliness_matches_classification_table (p : Peer) (llv : Option LivelyRequest)
    (secondaries : List Peer) (net : Peer → ProbeOutcome) :
    p.Liveliness llv secondaries net =
      ((secondaries.filter (fun s => tableIsLive (net s))).map
        (fun s => { peerID := s.id, ping := some (tablePing (net s)), err := none,
                    addr := s.addr }),
       (secondaries.filter (fun s => !tableIsLive (net s))).map
        (fun s => { peerID := s.id, ping := none, err := some (tableErr (net s)),
                    addr := s.addr }),
       none) := by
  show (_, _, _) = _
  rw [collectLiveliness_eq_table]

/-- C10.  The top-level error of Liveliness is nil for every primary,
every LivelyRequest argument (including nil) and every probe outcome;
consequently the error carried through a cycle into its CycleFeedback is
always nil. -/
theorem liveliness_top_error_nil (p : Peer) (llv : Option LivelyRequest)
    (secondaries : List Peer) (net : Peer → ProbeOutcome) (lp : livelyProxy)
    (route : String) (primary : Peer) (perm : List Nat) :
    (p.Liveliness llv secondaries net).2.2 = none ∧
    ((lp.cycle route primary secondaries net perm).1).2.2 = none :=
  ⟨rfl, rfl⟩

/-- C7.  The feedback-channel map returned by run is empty even though a
channel was allocated for the configured route: the loop body never
stores the channel in the map. -/
theorem run_returns_empty_feedback_map :
    ((makeLivelyProxy 0 [("/", ["http://a"])]).primaries = ["/"]) ∧
    ((makeLivelyProxy 0 [("/", ["http://a"])]).run = ([], 1)) ∧
    "/" ∉ ((makeLivelyProxy 0 [("/", ["http://a"])]).run).1.map Prod.fst := by
  refine ⟨rfl, rfl, ?_⟩
  simp [livelyProxy.run, makeLivelyProxy]

theorem firstNonEmptyString_eq_empty_iff (args : List String) :
    firstNonEmptyString args = "" ↔ ∀ a ∈ args, a = "" := by
  unfold firstNonEmptyString
  cases hfind : args.find? (fun s => s != "") with
  | none =>
      simp only [List.find?_eq_none, bne_iff_ne, ne_eq, not_not] at hfind
      simpa using hfind
  | some s =>
      have hs := List.find?_some hfind
      have hmem : s ∈ args := List.mem_of_find?_eq_some hfind
      simp only [bne_iff_ne, ne_eq] at hs
      constructor
      · intro h
        exact absurd h hs
      · intro h
        exact absurd (h s hmem) hs

theorem hasAtLeastOneProxy_eq_false_iff (req : Request) :
    req.hasAtLeastOneProxy = false ↔
      (if req.prefixRouter = [] then ∀ a ∈ req.proxyAddresses, a = ""
       else ∀ entry ∈ req.prefixRouter, ∀ a ∈ entry.2, a = "") := by
  unfold Request.hasAtLeastOneProxy
  by_cases hpr : req.prefixRouter = []
  · simp only [hpr, List.length_nil, if_pos rfl, ite_true]
    simp [← firstNonEmptyString_eq_empty_iff]
  · have hlen : ¬req.prefixRouter.length = 0 := by
      simpa [List.length_eq_zero] using hpr
    simp only [if_neg hlen, if_neg hpr]
    rw [List.any_eq_false]
    constructor
    · intro h entry hentry
      have := h entry hentry
      simp only [bne_iff_ne, ne_eq, not_not] at this
      exact (firstNonEmptyString_eq_empty_iff entry.2).mp this
    · intro h entry hentry
      simp only [bne_iff_ne, ne_eq, not_not]
      exact (firstNonEmptyString_eq_empty_iff entry.2).mpr (h entry hentry)

/-- C8 counterexample.  A configuration whose `proxy_addresses` holds the
non-empty address `"http://x"` but whose (non-empty) `prefix_router` has
only an address-less entry makes Validate fail with the NoProxy error:
`proxy_addresses` is ignored as soon as `prefix_router` is non-empty. -/
theorem validate_noProxy_counterexample :
    (Request.Validate
        { http1 := true, proxyAddresses := ["http://x"], prefixRouter := [("/foo", [])] }
      = some ValidateError.emptyProxyAddress) ∧
    ("http://x" ∈ Request.proxyAddresses
        { http1 := true, proxyAddresses := ["http://x"], prefixRouter := [("/foo", [])] } ∧
      "http://x" ≠ "") := by
  refine ⟨by decide, by decide, by decide⟩

/-- C8 amended.  Validate fails with the NoProxy error iff the
configuration has no non-empty address in the consulted source, where the
consulted source is `prefix_router` whenever it is non-empty and
`proxy_addresses` only when `prefix_router` is empty. -/
theorem validate_noProxy_iff (req : Request) :
    req.Validate = some ValidateError.emptyProxyAddress ↔
      (if req.prefixRouter = [] then ∀ a ∈ req.proxyAddresses, a = ""
       else ∀ entry ∈ req.prefixRouter, ∀ a ∈ entry.2, a = "") := by
  rw [← hasAtLeastOneProxy_eq_false_iff]
  unfold Request.Validate
  cases hproxy : req.hasAtLeastOneProxy with
  | false => simp
  | true =>
      simp only [Bool.not_true]
      rw [if_neg (by simp)]
      constructor
      · intro h
        split at h
        · exact ValidateError.noConfusion (Option.some.inj h)
        · exact Option.noConfusion h
      · intro h
        exact Bool.noConfusion h

/-- C8 witness for the amended characterization, at a configuration with
an empty `prefix_router` and only blank proxy addresses. -/
theorem validate_noProxy_iff_witness :
    Request.Validate { domains := ["d.example"], proxyAddresses := ["", ""] }
      = some ValidateError.emptyProxyAddress :=
  (validate_noProxy_iff { domains := ["d.example"], proxyAddresses := ["", ""] }).mpr
    (by decide)

/-- C9 counterexample.  With auto-www enabled, the domain `"wwwx"` is not
prefixed with `"www."`, yet SynthesizeDomains does not insert
`"www.wwwx"`: the code skips every domain that merely starts with the
three letters `"www"`. -/
theorem synthesizeDomains_wwwDot_counterexample :
    (Request.SynthesizeDomains { domains := ["wwwx"] } = ["wwwx"]) ∧
    (Request.noAutoWWW { domains := ["wwwx"] } = false) ∧
    goHasPrefix "wwwx" "www." = false ∧
    ("www." ++ "wwwx") ∉ Request.SynthesizeDomains { domains := ["wwwx"] } := by
  refine ⟨by decide, rfl, by decide, by decide⟩

/-- C4 counterexample.  With route `"/"` configured and its live-address
list still empty, a request for `"/x"` is not answered with 503: the
round-robin step yields the empty address, `url.Parse` accepts `""`, and
the request is handed to the reverse proxy targeting the empty URL. -/
theorem serveHTTP_empty_live_list_counterexample :
    (((makeLivelyProxy 0 [("/", ["http://backend"])]).ServeHTTP (fun _ => true) "/x").1
      = DispatchOutcome.forward "" "/x") ∧
    (∀ msg,
      ((makeLivelyProxy 0 [("/", ["http://backend"])]).ServeHTTP (fun _ => true) "/x").1
        ≠ DispatchOutcome.respondError 503 msg) := by
  have h : ((makeLivelyProxy 0 [("/", ["http://backend"])]).ServeHTTP
      (fun _ => true) "/x").1 = DispatchOutcome.forward "" "/x" := by decide
  refine ⟨h, fun msg hmsg => ?_⟩
  rw [h] at hmsg
  exact DispatchOutcome.noConfusion hmsg

/-- C4 amended.  When the matched route's live-address list is empty, the
Dispatcher does not answer 503 (it has no such branch): the round-robin
step returns the empty address and the request is forwarded to the
(successfully parsed) empty URL with the usual path rewrite, the state
being left unchanged.  The client-visible error is produced downstream
by the reverse proxy, not by the Dispatcher. -/
theorem serveHTTP_empty_live_list_forwards (lp : livelyProxy) (urlParseOk : String → Bool)
    (path : String)
    (hempty : lp.liveAddresses (matchedRoute lp.longestPrefixFirst path) = [])
    (hparse : urlParseOk "" = true) :
    (lp.ServeHTTP urlParseOk path).1 =
      DispatchOutcome.forward ""
        (if goHasPrefix (goTrimPrefixStr path (matchedRoute lp.longestPrefixFirst path)) "/"
         then goTrimPrefixStr path (matchedRoute lp.longestPrefixFirst path)
         else "/" ++ goTrimPrefixStr path (matchedRoute lp.longestPrefixFirst path)) ∧
    (lp.ServeHTTP urlParseOk path).2 = lp := by
  unfold livelyProxy.ServeHTTP livelyProxy.roundRobinedAddress
  simp [hempty, hparse]

/-- C4 witness for the amended statement, at the counterexample
configuration. -/
theorem serveHTTP_empty_live_list_forwards_witness :
    ((makeLivelyProxy 0 [("/", ["http://backend"])]).ServeHTTP (fun _ => true) "/x").2
      = makeLivelyProxy 0 [("/", ["http://backend"])] :=
  (serveHTTP_empty_live_list_forwards (makeLivelyProxy 0 [("/", ["http://backend"])])
    (fun _ => true) "/x" rfl rfl).2

/-- C6 counterexample.  Selecting the only live address advances the
stored cursor to 1 while the live list still has length 1, so immediately
after this operation the cursor is not strictly less than the sequence
length (the reset happens lazily at the start of the next selection). -/
theorem roundRobin_cursor_reaches_length :
    ((lpOneLive.roundRobinedAddress "/").2.next "/" = 1) ∧
    (((lpOneLive.roundRobinedAddress "/").2.liveAddresses "/").length = 1) ∧
    ¬((lpOneLive.roundRobinedAddress "/").2.next "/" <
        ((lpOneLive.roundRobinedAddress "/").2.liveAddresses "/").length) := by
  refine ⟨by decide, by decide, by decide⟩

theorem updateMap_same {α : Type} (m : String → α) (k : String) (v : α) :
    updateMap m k v k = v := by
  simp [updateMap]

theorem updateMap_other {α : Type} (m : String → α) (k : String) (v : α) (r : String)
    (h : r ≠ k) : updateMap m k v r = m r := by
  simp [updateMap, h]

theorem roundRobinedAddress_empty (lp : livelyProxy) (route : String)
    (h : (lp.liveAddresses route).length = 0) :
    lp.roundRobinedAddress route = ("", lp) := by
  unfold livelyProxy.roundRobinedAddress
  simp [h]

theorem roundRobinedAddress_nonempty (lp : livelyProxy) (route : String)
    (h : ¬(lp.liveAddresses route).length = 0) :
    lp.roundRobinedAddress route =
      ((lp.liveAddresses route).getD
          (if (lp.liveAddresses route).length ≤ lp.next route then 0 else lp.next route) "",
       { lp with
           next := updateMap lp.next route
             ((if (lp.liveAddresses route).length ≤ lp.next route then 0
               else lp.next route) + 1) }) := by
  unfold livelyProxy.roundRobinedAddress
  simp [h]

/-- C6 amended.  Both operations preserve the relaxed invariant
`cursor <= length`; a cycle resets the cursor of its route to 0 in the
same state transition that replaces the list; and a selection on a
non-empty list always serves an element of that list, the cursor being
normalised into range before use. -/
theorem cache_cursor_invariant (lp : livelyProxy) (route : String) (primary : Peer)
    (secondaries : List Peer) (net : Peer → ProbeOutcome) (perm : List Nat) :
    (cursorInv lp → cursorInv (lp.roundRobinedAddress route).2) ∧
    (cursorInv lp → cursorInv (lp.cycle route primary secondaries net perm).2) ∧
    ((lp.cycle route primary secondaries net perm).2.next route = 0) ∧
    (0 < (lp.liveAddresses route).length →
      (lp.roundRobinedAddress route).1 ∈ lp.liveAddresses route) := by
  refine ⟨?_, ?_, ?_, ?_⟩
  · intro hinv r
    by_cases hlen : (lp.liveAddresses route).length = 0
    · rw [roundRobinedAddress_empty lp route hlen]
      exact hinv r
    · rw [roundRobinedAddress_nonempty lp route hlen]
      by_cases hr : r = route
      · subst hr
        show updateMap lp.next r _ r ≤ (lp.liveAddresses r).length
        rw [updateMap_same]
        split <;> omega
      · show updateMap lp.next route _ r ≤ (lp.liveAddresses r).length
        rw [updateMap_other _ _ _ _ hr]
        exact hinv r
  · intro hinv r
    show updateMap lp.next route 0 r ≤ (updateMap lp.liveAddresses route _ r).length
    by_cases hr : r = route
    · subst hr
      rw [updateMap_same]
      exact Nat.zero_le _
    · rw [updateMap_other _ _ _ _ hr, updateMap_other _ _ _ _ hr]
      exact hinv r
  · exact updateMap_same lp.next route 0
  · intro hpos
    have hlen : ¬(lp.liveAddresses route).length = 0 := by omega
    rw [roundRobinedAddress_nonempty lp route hlen]
    have hcl : (if (lp.liveAddresses route).length ≤ lp.next route then 0
        else lp.next route) < (lp.liveAddresses route).length := by
      split <;> omega
    rw [List.getD_eq_getElem _ "" hcl]
    exact List.getElem_mem hcl

/-- C6 witness for the amended statement: invariant preservation and
in-range selection at the one-live-address state. -/
theorem cache_cursor_invariant_witness :
    cursorInv ((lpOneLive.roundRobinedAddress "/").2) ∧
    (lpOneLive.roundRobinedAddress "/").1 ∈ lpOneLive.liveAddresses "/" := by
  refine ⟨(cache_cursor_invariant lpOneLive "/" { addr := "", id := "" } []
      (fun _ => ProbeOutcome.requestError "") []).1 (fun r => ?_),
    (cache_cursor_invariant lpOneLive "/" { addr := "", id := "" } []
      (fun _ => ProbeOutcome.requestError "") []).2.2.2 (by decide)⟩
  show 0 ≤ _
  exact Nat.zero_le _

theorem eq_of_prefixes_length_eq (path r m : String)
    (hr : goHasPrefix path r = true) (hm : goHasPrefix path m = true)
    (hlen : r.length = m.length) : r = m := by
  unfold goHasPrefix at hr hm
  simp only [ List.isPrefixOf_iff_prefix] at hr hm
  have hlen' : r.toList.length = m.toList.length := hlen
  have hsub : r.toList <+: m.toList :=
    List.prefix_of_prefix_length_le hr hm (Nat.le_of_eq hlen')
  exact String.ext (hsub.eq_of_length hlen')

theorem find_longest (path : String) :
    ∀ L : List String, List.Sorted longerOrEqual L →
      ∀ q ∈ L, goHasPrefix path q = true →
        ∃ m, L.find? (fun routePre => goHasPrefix path routePre) = some m ∧
          ∀ r ∈ L, goHasPrefix path r = true → r.length ≤ m.length := by
  intro L
  induction L with
  | nil => exact fun _ q hq _ => absurd hq (List.not_mem_nil q)
  | cons a L ih =>
      intro hs q hq hqpre
      by_cases ha : goHasPrefix path a = true
      · refine ⟨a, List.find?_cons_of_pos _ ha, ?_⟩
        intro r hr hrpre
        rcases List.mem_cons.mp hr with rfl | hr
        · exact Nat.le_refl _
        · exact (List.sorted_cons.mp hs).1 r hr
      · have hq' : q ∈ L := by
          rcases List.mem_cons.mp hq with rfl | h
          · exact absurd hqpre ha
          · exact h
        obtain ⟨m, hfind, hmax⟩ := ih (List.sorted_cons.mp hs).2 q hq' hqpre
        refine ⟨m, ?_, ?_⟩
        · rw [List.find?_cons_of_neg _ ha, hfind]
        · intro r hr hrpre
          rcases List.mem_cons.mp hr with rfl | hr
          · exact absurd hrpre ha
          · exact hmax r hr hrpre

/-- C1.  For every prefix-router configuration (in any map-iteration
order) and every request path that some configured route matches, the
Dispatcher's matched route is the longest configured route that is a
string prefix of the path; and an equal-length matching route is
necessarily that same route, so the first-inserted-wins tie-break can
never change the matched route (two distinct equal-length strings cannot
both be prefixes of one path). -/
theorem dispatcher_matches_longest_configured_route (pr : List (String × List String))
    (freq : Int) (path q : String)
    (hq : q ∈ pr.map Prod.fst) (hqpre : goHasPrefix path q = true) :
    matchedRoute (makeLivelyProxy freq pr).longestPrefixFirst path ∈ pr.map Prod.fst ∧
    goHasPrefix path (matchedRoute (makeLivelyProxy freq pr).longestPrefixFirst path) = true ∧
    ∀ r ∈ pr.map Prod.fst, goHasPrefix path r = true →
      r.length ≤ (matchedRoute (makeLivelyProxy freq pr).longestPrefixFirst path).length ∧
      (r.length = (matchedRoute (makeLivelyProxy freq pr).longestPrefixFirst path).length →
        r = matchedRoute (makeLivelyProxy freq pr).longestPrefixFirst path) := by
  have hLP : (makeLivelyProxy freq pr).longestPrefixFirst
      = sortLongestFirst (pr.map Prod.fst) := rfl
  have hsorted : List.Sorted longerOrEqual (sortLongestFirst (pr.map Prod.fst)) :=
    List.sorted_insertionSort longerOrEqual (pr.map Prod.fst)
  have hpermL : List.Perm (sortLongestFirst (pr.map Prod.fst)) (pr.map Prod.fst) :=
    List.perm_insertionSort longerOrEqual (pr.map Prod.fst)
  have hqL : q ∈ sortLongestFirst (pr.map Prod.fst) := hpermL.mem_iff.mpr hq
  obtain ⟨m, hfind, hmax⟩ := find_longest path _ hsorted q hqL hqpre
  have hm : matchedRoute (sortLongestFirst (pr.map Prod.fst)) path = m := by
    unfold matchedRoute
    rw [hfind]
  have hmem : m ∈ sortLongestFirst (pr.map Prod.fst) := List.mem_of_find?_eq_some hfind
  have hmpre : goHasPrefix path m = true := List.find?_some hfind
  rw [hLP, hm]
  refine ⟨hpermL.mem_iff.mp hmem, hmpre, ?_⟩
  intro r hr hrpre
  exact ⟨hmax r (hpermL.mem_iff.mpr hr) hrpre,
    fun hlen => eq_of_prefixes_length_eq path r m hrpre hmpre hlen⟩

/-- C1 witness: with routes `"/"`, `"/foo"`, `"/fo"` the path
`"/foo/bar"` matches `"/foo"`, which is a prefix of the path and at least
as long as the also-matching `"/fo"`. -/
theorem dispatcher_matches_longest_route_witness :
    matchedRoute
        (makeLivelyProxy 0 [("/", ["a"]), ("/foo", ["b"]), ("/fo", ["c"])]).longestPrefixFirst
        "/foo/bar" = "/foo" ∧
    goHasPrefix "/foo/bar"
        (matchedRoute
          (makeLivelyProxy 0 [("/", ["a"]), ("/foo", ["b"]), ("/fo", ["c"])]).longestPrefixFirst
          "/foo/bar") = true ∧
    "/fo".length ≤
      (matchedRoute
        (makeLivelyProxy 0 [("/", ["a"]), ("/foo", ["b"]), ("/fo", ["c"])]).longestPrefixFirst
        "/foo/bar").length :=
  have h := dispatcher_matches_longest_configured_route
    [("/", ["a"]), ("/foo", ["b"]), ("/fo", ["c"])] 0 "/foo/bar" "/" (by decide) (by decide)
  ⟨by decide, h.2.1, (h.2.2 "/fo" (by decide) (by decide)).1⟩

theorem map_getD_range {α : Type} (l : List α) (d : α) :
    (List.range l.length).map (fun i => l.getD i d) = l := by
  apply List.ext_getElem
  · simp
  · intro i h1 h2
    simp only [List.getElem_map, List.getElem_range]
    exact List.getD_eq_getElem l d h2

theorem applyPerm_perm {α : Type} (l : List α) (d : α) (perm : List Nat)
    (hp : List.Perm perm (List.range l.length)) :
    List.Perm (perm.map (fun i => l.getD i d)) l := by
  have h := hp.map (fun i => l.getD i d)
  rw [map_getD_range] at h
  exact h

theorem exists_applyPerm {α : Type} (d : α) {l target : List α} (h : List.Perm l target) :
    ∃ perm, List.Perm perm (List.range l.length) ∧
      perm.map (fun i => l.getD i d) = target := by
  induction h with
  | nil => exact ⟨[], List.Perm.refl _, rfl⟩
  | @cons x l₁ l₂ h ih =>
      obtain ⟨is, his, happ⟩ := ih
      refine ⟨0 :: is.map (fun i => i + 1), ?_, ?_⟩
      · rw [List.length_cons, List.range_succ_eq_map]
        exact (his.map (fun i => i + 1)).cons 0
      · rw [List.map_cons, List.map_map]
        have hcomp : ((fun i => List.getD (x :: l₁) i d) ∘ (fun i => i + 1))
            = (fun i => List.getD l₁ i d) := by
          funext i
          rfl
        rw [hcomp, happ]
        rfl
  | swap x y l' =>
      refine ⟨1 :: 0 :: (List.range l'.length).map (fun i => i + 2), ?_, ?_⟩
      · have heq : List.range (y :: x :: l').length
            = 0 :: 1 :: (List.range l'.length).map (fun i => i + 2) := by
          show List.range (l'.length + 1 + 1) = _
          rw [List.range_succ_eq_map, List.range_succ_eq_map, List.map_cons, List.map_map]
          rfl
        rw [heq]
        exact List.Perm.swap 0 1 _
      · rw [List.map_cons, List.map_cons, List.map_map]
        have hcomp : ((fun i => List.getD (y :: x :: l') i d) ∘ (fun i => i + 2))
            = (fun i => List.getD l' i d) := by
          funext i
          rfl
        rw [hcomp, map_getD_range]
        rfl
  | @trans l₁ l₂ l₃ h₁ h₂ ih₁ ih₂ =>
      obtain ⟨is₁, c₁, a₁⟩ := ih₁
      obtain ⟨is₂, c₂, a₂⟩ := ih₂
      have hlen1 : is₁.length = l₁.length := by
        have h := c₁.length_eq
        rwa [List.length_range] at h
      have hlenm : l₁.length = l₂.length := h₁.length_eq
      refine ⟨is₂.map (fun j => is₁.getD j 0), ?_, ?_⟩
      · have step1 := c₂.map (fun j => is₁.getD j 0)
        have step2 : (List.range l₂.length).map (fun j => is₁.getD j 0) = is₁ := by
          rw [← hlenm, ← hlen1]
          exact map_getD_range is₁ 0
        rw [step2] at step1
        exact step1.trans c₁
      · rw [List.map_map, ← a₂]
        apply List.map_congr_left
        intro j hj
        have hjm : j < l₂.length := by
          have hmem := c₂.mem_iff.mp hj
          rwa [List.mem_range] at hmem
        have hj1 : j < is₁.length := by omega
        show List.getD l₁ (is₁.getD j 0) d = List.getD l₂ j d
        rw [List.getD_eq_getElem is₁ 0 hj1, List.getD_eq_getElem l₂ d hjm]
        have a₁e := a₁.symm
        subst a₁e
        simp

/-- C3.  After a cycle, the published live-address list of the route is
the `rand.Perm`-shuffle of the addresses of the live Liveliness records
(hence a permutation of them), and the route's cursor is reset to 0 by
the same state transition that installs the list.  Every rearrangement of
the live addresses is reachable by some `rand.Perm` output, which is what
makes the uniformly random `rand.Perm` produce a uniformly random
published list. -/
theorem cycle_publishes_shuffled_live_addresses (lp : livelyProxy) (route : String)
    (primary : Peer) (secondaries : List Peer) (net : Peer → ProbeOutcome) (perm : List Nat)
    (hperm : List.Perm perm (List.range
      (((primary.Liveliness (some { concurrentPings := 0 }) secondaries net).1).map
        (fun peer => peer.addr)).length)) :
    List.Perm ((lp.cycle route primary secondaries net perm).2.liveAddresses route)
      (((lp.cycle route primary secondaries net perm).1.1).map (fun peer => peer.addr)) ∧
    (lp.cycle route primary secondaries net perm).2.next route = 0 ∧
    (∀ target,
      List.Perm (((lp.cycle route primary secondaries net perm).1.1).map
        (fun peer => peer.addr)) target →
      ∃ perm2,
        List.Perm perm2 (List.range
          ((((lp.cycle route primary secondaries net perm).1.1).map
            (fun peer => peer.addr)).length)) ∧
        perm2.map
            (fun i => (((lp.cycle route primary secondaries net perm).1.1).map
              (fun peer => peer.addr)).getD i "") = target) := by
  have hres : (lp.cycle route primary secondaries net perm).1
      = primary.Liveliness (some { concurrentPings := 0 }) secondaries net := rfl
  have hlist : (lp.cycle route primary secondaries net perm).2.liveAddresses route
      = perm.map
          (fun i => (((primary.Liveliness (some { concurrentPings := 0 })
            secondaries net).1).map (fun peer => peer.addr)).getD i "") :=
    updateMap_same _ _ _
  refine ⟨?_, updateMap_same _ _ _, ?_⟩
  · rw [hres, hlist]
    exact applyPerm_perm _ "" perm hperm
  · intro target htarget
    rw [hres] at htarget ⊢
    exact exists_applyPerm "" htarget

/-- C3 witness: one live secondary, identity shuffle. -/
theorem cycle_publishes_shuffled_witness :
    ((makeLivelyProxy 0 [("/", ["http://s1"])]).cycle "/"
        { addr := "", id := "p", primary := true } [{ addr := "http://s1", id := "s1" }]
        (fun _ => ProbeOutcome.response 200 (BodyRead.bytes none)) [0]).2.next "/" = 0 ∧
    List.Perm
      (((makeLivelyProxy 0 [("/", ["http://s1"])]).cycle "/"
          { addr := "", id := "p", primary := true } [{ addr := "http://s1", id := "s1" }]
          (fun _ => ProbeOutcome.response 200 (BodyRead.bytes none)) [0]).2.liveAddresses "/")
      ((((makeLivelyProxy 0 [("/", ["http://s1"])]).cycle "/"
          { addr := "", id := "p", primary := true } [{ addr := "http://s1", id := "s1" }]
          (fun _ => ProbeOutcome.response 200 (BodyRead.bytes none)) [0]).1.1).map
        (fun peer => peer.addr)) :=
  have h := cycle_publishes_shuffled_live_addresses
    (makeLivelyProxy 0 [("/", ["http://s1"])]) "/"
    { addr := "", id := "p", primary := true } [{ addr := "http://s1", id := "s1" }]
    (fun _ => ProbeOutcome.response 200 (BodyRead.bytes none)) [0] (by decide)
  ⟨h.2.1, h.1⟩

theorem dispatches_succ (lp : livelyProxy) (route : String) (k : Nat) :
    lp.dispatches route (k + 1) =
      (lp.roundRobinedAddress route).1 ::
        ((lp.roundRobinedAddress route).2).dispatches route k := rfl

theorem dispatches_formula (route : String) (l : List String) (hn : 0 < l.length) :
    ∀ (k : Nat) (lp : livelyProxy) (c : Nat),
      lp.liveAddresses route = l → lp.next route = c →
      lp.dispatches route k =
        (List.range k).map
          (fun j => l.getD (((if l.length ≤ c then 0 else c) + j) % l.length) "") := by
  intro k
  induction k with
  | zero => intro lp c _ _; rfl
  | succ k ih =>
      intro lp c hl hc
      have hlen0 : ¬(lp.liveAddresses route).length = 0 := by
        rw [hl]; omega
      have hstep := roundRobinedAddress_nonempty lp route hlen0
      have helt : (if l.length ≤ c then 0 else c) < l.length := by
        split <;> omega
      rw [dispatches_succ, hstep, hl, hc]
      rw [ih { lp with
          next := updateMap lp.next route ((if l.length ≤ c then 0 else c) + 1) }
        ((if l.length ≤ c then 0 else c) + 1) hl (updateMap_same _ _ _)]
      rw [List.range_succ_eq_map, List.map_cons, List.map_map]
      congr 1
      · show l.getD (if l.length ≤ c then 0 else c) ""
            = l.getD (((if l.length ≤ c then 0 else c) + 0) % l.length) ""
        rw [Nat.add_zero, Nat.mod_eq_of_lt helt]
      · apply List.map_congr_left
        intro j _
        show l.getD
            (((if l.length ≤ (if l.length ≤ c then 0 else c) + 1 then 0
               else (if l.length ≤ c then 0 else c) + 1) + j) % l.length) ""
          = l.getD (((if l.length ≤ c then 0 else c) + (j + 1)) % l.length) ""
        congr 1
        by_cases h1 : l.length ≤ (if l.length ≤ c then 0 else c) + 1
        · rw [if_pos h1]
          have h2 : (if l.length ≤ c then 0 else c) + (j + 1) = l.length + j := by omega
          rw [h2, Nat.add_mod_left, Nat.zero_add]
        · rw [if_neg h1]
          congr 1
          omega

theorem map_mod_block_perm (l : List String) (a : Nat) (hn : 0 < l.length) :
    List.Perm ((List.range l.length).map (fun j => l.getD ((a + j) % l.length) "")) l := by
  have hidx : List.Perm ((List.range l.length).map (fun j => (a + j) % l.length))
      (List.range l.length) := by
    have hnodup : ((List.range l.length).map (fun j => (a + j) % l.length)).Nodup := by
      apply List.Nodup.map_on ?_ (List.nodup_range _)
      intro i hi j hj hee
      rw [List.mem_range] at hi hj
      have h2 : i % l.length = j % l.length := Nat.ModEq.add_left_cancel' a hee
      rwa [Nat.mod_eq_of_lt hi, Nat.mod_eq_of_lt hj] at h2
    have hsub : ((List.range l.length).map (fun j => (a + j) % l.length))
        ⊆ List.range l.length := by
      intro x hx
      rw [List.mem_map] at hx
      obtain ⟨j, _, rfl⟩ := hx
      rw [List.mem_range]
      exact Nat.mod_lt _ hn
    exact (List.subperm_of_subset hnodup hsub).perm_of_length_le (by simp)
  have h := hidx.map (fun i => l.getD i "")
  rw [map_getD_range, List.map_map] at h
  exact h

/-- C5.  With a stable non-empty live list of length N and any starting
cursor, the addresses served by successive dispatches follow the cursor
positions start, start+1, start+2, ... modulo N (where start is the
normalised cursor), and over 2N consecutive dispatches the served
multiset is exactly two copies of the live list: every live address slot
is served exactly twice. -/
theorem roundRobin_two_rounds (lp : livelyProxy) (route : String) (l : List String) (c : Nat)
    (hl : lp.liveAddresses route = l) (hc : lp.next route = c) (hn : 0 < l.length) :
    lp.dispatches route (2 * l.length) =
      (List.range (2 * l.length)).map
        (fun j => l.getD (((if l.length ≤ c then 0 else c) + j) % l.length) "") ∧
    List.Perm (lp.dispatches route (2 * l.length)) (l ++ l) ∧
    ∀ a, (lp.dispatches route (2 * l.length)).count a = 2 * l.count a := by
  have hform := dispatches_formula route l hn (2 * l.length) lp c hl hc
  have hperm : List.Perm (lp.dispatches route (2 * l.length)) (l ++ l) := by
    rw [hform]
    have h2n : 2 * l.length = l.length + l.length := by omega
    rw [h2n, List.range_add, List.map_append]
    apply List.Perm.append
    · exact map_mod_block_perm l _ hn
    · rw [List.map_map]
      have hcongr : ∀ j ∈ List.range l.length,
          ((fun j => l.getD (((if l.length ≤ c then 0 else c) + j) % l.length) "") ∘
            (fun x => l.length + x)) j
          = (fun j => l.getD (((if l.length ≤ c then 0 else c) + j) % l.length) "") j := by
        intro j _
        show l.getD (((if l.length ≤ c then 0 else c) + (l.length + j)) % l.length) ""
            = l.getD (((if l.length ≤ c then 0 else c) + j) % l.length) ""
        congr 1
        have heq : (if l.length ≤ c then 0 else c) + (l.length + j)
            = l.length + ((if l.length ≤ c then 0 else c) + j) := by omega
        rw [heq, Nat.add_mod_left]
      rw [List.map_congr_left hcongr]
      exact map_mod_block_perm l _ hn
  refine ⟨hform, hperm, fun a => ?_⟩
  rw [hperm.count_eq, List.count_append]
  omega

/-- C5 witness: four dispatches over the stable two-element live list are
a permutation of two copies of it, and each address is served twice. -/
theorem roundRobin_two_rounds_witness :
    List.Perm (lpTwoLive.dispatches "/" (2 * (["http://a", "http://b"] : List String).length))
      (["http://a", "http://b"] ++ ["http://a", "http://b"]) ∧
    (lpTwoLive.dispatches "/" (2 * (["http://a", "http://b"] : List String).length)).count
      "http://a" = 2 * (["http://a", "http://b"] : List String).count "http://a" :=
  have h := roundRobin_two_rounds lpTwoLive "/" ["http://a", "http://b"] 0
    (by decide) (by decide) (by decide)
  ⟨h.2.1, h.2.2 "http://a"⟩

theorem mem_dedupKeepFirst (y : String) : ∀ (xs seen : List String),
    y ∈ dedupKeepFirst seen xs ↔ y ∈ xs ∧ y ∉ seen := by
  intro xs
  induction xs with
  | nil => intro seen; simp [dedupKeepFirst]
  | cons x xs ih =>
      intro seen
      by_cases hx : x ∈ seen
      · rw [show dedupKeepFirst seen (x :: xs) = dedupKeepFirst seen xs from by
          simp [dedupKeepFirst, hx]]
        rw [ih seen]
        simp only [List.mem_cons]
        constructor
        · rintro ⟨h1, h2⟩
          exact ⟨Or.inr h1, h2⟩
        · rintro ⟨h1 | h1, h2⟩
          · subst h1
            exact absurd hx h2
          · exact ⟨h1, h2⟩
      · rw [show dedupKeepFirst seen (x :: xs) = x :: dedupKeepFirst (x :: seen) xs from by
          simp [dedupKeepFirst, hx]]
        simp only [List.mem_cons, ih (x :: seen)]
        constructor
        · rintro (rfl | ⟨h1, h2⟩)
          · exact ⟨Or.inl rfl, hx⟩
          · push_neg at h2
            exact ⟨Or.inr h1, h2.2⟩
        · rintro ⟨rfl | h1, h2⟩
          · exact Or.inl rfl
          · by_cases hyx : y = x
            · exact Or.inl hyx
            · refine Or.inr ⟨h1, ?_⟩
              push_neg
              exact ⟨hyx, h2⟩

theorem dedupKeepFirst_congr : ∀ (xs seen₁ seen₂ : List String),
    (∀ y, y ∈ seen₁ ↔ y ∈ seen₂) →
    dedupKeepFirst seen₁ xs = dedupKeepFirst seen₂ xs := by
  intro xs
  induction xs with
  | nil => intro _ _ _; rfl
  | cons x xs ih =>
      intro s₁ s₂ h
      by_cases hx : x ∈ s₁
      · have hx2 : x ∈ s₂ := (h x).mp hx
        rw [show dedupKeepFirst s₁ (x :: xs) = dedupKeepFirst s₁ xs from by
            simp [dedupKeepFirst, hx],
          show dedupKeepFirst s₂ (x :: xs) = dedupKeepFirst s₂ xs from by
            simp [dedupKeepFirst, hx2]]
        exact ih s₁ s₂ h
      · have hx2 : x ∉ s₂ := fun hc => hx ((h x).mpr hc)
        rw [show dedupKeepFirst s₁ (x :: xs) = x :: dedupKeepFirst (x :: s₁) xs from by
            simp [dedupKeepFirst, hx],
          show dedupKeepFirst s₂ (x :: xs) = x :: dedupKeepFirst (x :: s₂) xs from by
            simp [dedupKeepFirst, hx2]]
        congr 1
        apply ih
        intro y
        simp [List.mem_cons, h y]

theorem dedupKeepFirst_append : ∀ (xs ys u : List String),
    dedupKeepFirst u (xs ++ ys)
      = dedupKeepFirst u xs ++ dedupKeepFirst (xs ++ u) ys := by
  intro xs
  induction xs with
  | nil =>
      intro ys u
      rw [List.nil_append, List.nil_append]
      rw [show dedupKeepFirst u ([] : List String) = [] from rfl, List.nil_append]
  | cons x xs ih =>
      intro ys u
      rw [List.cons_append]
      by_cases hx : x ∈ u
      · rw [show dedupKeepFirst u (x :: (xs ++ ys)) = dedupKeepFirst u (xs ++ ys) from by
            simp [dedupKeepFirst, hx],
          show dedupKeepFirst u (x :: xs) = dedupKeepFirst u xs from by
            simp [dedupKeepFirst, hx]]
        rw [ih ys u]
        congr 1
        apply dedupKeepFirst_congr
        intro y
        rw [List.cons_append]
        simp only [List.mem_append, List.mem_cons]
        constructor
        · intro h
          exact Or.inr h
        · rintro (rfl | h)
          · exact Or.inr hx
          · exact h
      · rw [show dedupKeepFirst u (x :: (xs ++ ys))
              = x :: dedupKeepFirst (x :: u) (xs ++ ys) from by
            simp [dedupKeepFirst, hx],
          show dedupKeepFirst u (x :: xs) = x :: dedupKeepFirst (x :: u) xs from by
            simp [dedupKeepFirst, hx]]
        rw [ih ys (x :: u), List.cons_append]
        congr 2
        apply dedupKeepFirst_congr
        intro y
        rw [List.cons_append]
        simp only [List.mem_append, List.mem_cons]
        tauto

theorem addUnique_foldl : ∀ (xs fl u : List String),
    (xs.foldl addUnique (fl, u)).1 = fl ++ dedupKeepFirst u xs ∧
    (∀ y, y ∈ (xs.foldl addUnique (fl, u)).2 ↔ y ∈ u ∨ y ∈ dedupKeepFirst u xs) := by
  intro xs
  induction xs with
  | nil =>
      intro fl u
      refine ⟨by simp [dedupKeepFirst], fun y => by simp [dedupKeepFirst]⟩
  | cons x xs ih =>
      intro fl u
      by_cases hx : x ∈ u
      · have hstep : addUnique (fl, u) x = (fl, u) := by
          simp [addUnique, hx]
        rw [List.foldl_cons, hstep,
          show dedupKeepFirst u (x :: xs) = dedupKeepFirst u xs from by
            simp [dedupKeepFirst, hx]]
        exact ih fl u
      · have hstep : addUnique (fl, u) x = (fl ++ [x], x :: u) := by
          simp [addUnique, hx]
        rw [List.foldl_cons, hstep,
          show dedupKeepFirst u (x :: xs) = x :: dedupKeepFirst (x :: u) xs from by
            simp [dedupKeepFirst, hx]]
        obtain ⟨h1, h2⟩ := ih (fl ++ [x]) (x :: u)
        refine ⟨?_, ?_⟩
        · rw [h1, List.append_assoc]
          rfl
        · intro y
          rw [h2 y]
          simp only [List.mem_cons]
          tauto

theorem synthStep_foldl (na : Bool) : ∀ (ds fl u : List String),
    (ds.foldl (synthStep na) (fl, u)).1
      = fl ++ dedupKeepFirst u
          (((ds.map goTrimSpace).filter (fun d => d != "")).flatMap (expandAutoWWW na)) ∧
    (∀ y, y ∈ (ds.foldl (synthStep na) (fl, u)).2 ↔
      y ∈ u ∨ y ∈ dedupKeepFirst u
        (((ds.map goTrimSpace).filter (fun d => d != "")).flatMap (expandAutoWWW na))) := by
  intro ds
  induction ds with
  | nil =>
      intro fl u
      refine ⟨by simp [dedupKeepFirst], fun y => by simp [dedupKeepFirst]⟩
  | cons d ds ih =>
      intro fl u
      by_cases hd : (goTrimSpace d == "") = true
      · have hstep : synthStep na (fl, u) d = (fl, u) := by
          simp [synthStep, hd]
        have hpipe : (((d :: ds).map goTrimSpace).filter (fun d => d != "")).flatMap
              (expandAutoWWW na)
            = ((ds.map goTrimSpace).filter (fun d => d != "")).flatMap (expandAutoWWW na) := by
          rw [List.map_cons, List.filter_cons]
          simp only [bne, hd, Bool.not_true, Bool.false_eq_true, if_false]
        rw [List.foldl_cons, hstep, hpipe]
        exact ih fl u
      · have hstep : synthStep na (fl, u) d
            = (expandAutoWWW na (goTrimSpace d)).foldl addUnique (fl, u) := by
          simp only [synthStep, hd, Bool.false_eq_true, if_false, expandAutoWWW]
        have hpipe : (((d :: ds).map goTrimSpace).filter (fun d => d != "")).flatMap
              (expandAutoWWW na)
            = expandAutoWWW na (goTrimSpace d)
              ++ ((ds.map goTrimSpace).filter (fun d => d != "")).flatMap
                  (expandAutoWWW na) := by
          rw [List.map_cons, List.filter_cons]
          simp only [bne, hd, Bool.not_false, if_true, List.flatMap_cons]
        rw [List.foldl_cons, hstep, hpipe]
        obtain ⟨ha1, ha2⟩ := addUnique_foldl (expandAutoWWW na (goTrimSpace d)) fl u
        obtain ⟨hi1, hi2⟩ :=
          ih ((expandAutoWWW na (goTrimSpace d)).foldl addUnique (fl, u)).1
            ((expandAutoWWW na (goTrimSpace d)).foldl addUnique (fl, u)).2
        have hcongr : dedupKeepFirst
              ((expandAutoWWW na (goTrimSpace d)).foldl addUnique (fl, u)).2
              (((ds.map goTrimSpace).filter (fun d => d != "")).flatMap (expandAutoWWW na))
            = dedupKeepFirst (expandAutoWWW na (goTrimSpace d) ++ u)
              (((ds.map goTrimSpace).filter (fun d => d != "")).flatMap
                (expandAutoWWW na)) := by
          apply dedupKeepFirst_congr
          intro y
          rw [ha2 y, mem_dedupKeepFirst y, List.mem_append]
          tauto
        refine ⟨?_, ?_⟩
        · rw [hi1, ha1, hcongr, dedupKeepFirst_append, List.append_assoc]
        · intro y
          rw [hi2 y, ha2 y, hcongr, dedupKeepFirst_append]
          simp only [mem_dedupKeepFirst, List.mem_append]
          tauto

/-- C9 amended.  SynthesizeDomains equals the spec pipeline -- trim each
entry, drop empties, insert the www form after each not-yet-www domain
unless already present, deduplicate keeping first occurrences -- with the
one correction that the "already www" test is the code's
`strings.HasPrefix(domain, "www")`, not a `"www."` test. -/
theorem synthesizeDomains_eq_spec (req : Request) :
    req.SynthesizeDomains = specSynthesizeDomains req.noAutoWWW req.domains := by
  unfold Request.SynthesizeDomains specSynthesizeDomains
  rw [(synthStep_foldl req.noAutoWWW req.domains [] []).1, List.nil_append]
